import Mathlib

/-!
Verification development for the intersection/shading core of the `rayt`
path tracer.  The geometric and shading code is embedded shallowly over `ℚ`:
every arithmetic operation of the Rust source maps to the corresponding exact
rational operation, and the external `f64` primitives (`sqrt`, `atan2`,
`asin`, the constant `π`, and the random stream) are passed in as explicit
parameters, so that theorems can state exactly which analytic facts about
them they rely on.
-/

/-- `Float3` from `src/rayt/float3.rs`: a 3-component vector.  The Rust
source stores `[f64; 3]`; here the three components are exact rationals. -/
structure Float3 where
  x : ℚ
  y : ℚ
  z : ℚ
  deriving DecidableEq, Repr

/-- `Color`, `Vec3` and `Point3` are type aliases of `Float3` in the source. -/
abbrev Color := Float3
abbrev Vec3 := Float3
abbrev Point3 := Float3

namespace Float3

/-- `Float3::xaxis`. -/
def xaxis : Float3 := ⟨1, 0, 0⟩

/-- `Float3::yaxis`. -/
def yaxis : Float3 := ⟨0, 1, 0⟩

/-- `Float3::zaxis`. -/
def zaxis : Float3 := ⟨0, 0, 1⟩

/-- `Float3::zero`. -/
def zero : Float3 := ⟨0, 0, 0⟩

/-- `Float3::one`. -/
def one : Float3 := ⟨1, 1, 1⟩

/-- `Float3::fill`. -/
def fill (value : ℚ) : Float3 := ⟨value, value, value⟩

/-- Componentwise addition (`impl Add<Float3> for Float3`). -/
instance : Add Float3 := ⟨fun a b => ⟨a.x + b.x, a.y + b.y, a.z + b.z⟩⟩

/-- Componentwise subtraction (`impl Sub<Float3> for Float3`). -/
instance : Sub Float3 := ⟨fun a b => ⟨a.x - b.x, a.y - b.y, a.z - b.z⟩⟩

/-- Componentwise negation (`impl Neg for Float3`). -/
instance : Neg Float3 := ⟨fun a => ⟨-a.x, -a.y, -a.z⟩⟩

/-- Componentwise multiplication (`impl Mul<Float3> for Float3`). -/
instance : Mul Float3 := ⟨fun a b => ⟨a.x * b.x, a.y * b.y, a.z * b.z⟩⟩

/-- Scalar multiplication (`impl Mul<f64> for Float3`). -/
def smul (a : Float3) (k : ℚ) : Float3 := ⟨a.x * k, a.y * k, a.z * k⟩

/-- Scalar division (`impl Div<f64> for Float3`). -/
def divScalar (a : Float3) (k : ℚ) : Float3 := ⟨a.x / k, a.y / k, a.z / k⟩

/-- `Float3::dot`. -/
def dot (a b : Float3) : ℚ := a.x * b.x + a.y * b.y + a.z * b.z

/-- `Float3::length_squered` (the source's own spelling). -/
def length_squered (a : Float3) : ℚ := a.x * a.x + a.y * a.y + a.z * a.z

/-- `Float3::length`, with the `f64::sqrt` primitive passed explicitly. -/
def length (sqrt : ℚ → ℚ) (a : Float3) : ℚ := sqrt a.length_squered

/-- `Float3::normalize`: `*self / self.length()`. -/
def normalize (sqrt : ℚ → ℚ) (a : Float3) : Float3 := a.divScalar (a.length sqrt)

/-- `Float3::reflect`: `*self - 2.0 * self.dot(normal) * normal`. -/
def reflect (v normal : Float3) : Float3 := v - normal.smul (2 * v.dot normal)

lemma add_def (a b : Float3) : a + b = ⟨a.x + b.x, a.y + b.y, a.z + b.z⟩ := rfl

lemma sub_def (a b : Float3) : a - b = ⟨a.x - b.x, a.y - b.y, a.z - b.z⟩ := rfl

lemma neg_def (a : Float3) : -a = ⟨-a.x, -a.y, -a.z⟩ := rfl

lemma mul_def (a b : Float3) : a * b = ⟨a.x * b.x, a.y * b.y, a.z * b.z⟩ := rfl

end Float3

/-- Modelled from the spec: `Ray` lives in `src/rayt/ray.rs`, which is
declared in `src/rayt.rs` but absent from the source tree.  Spec §3:
"Ray: origin point + direction vector (not necessarily unit length)". -/
structure Ray where
  origin : Point3
  direction : Vec3
  deriving DecidableEq, Repr

/-- Modelled from the spec: `Ray::at`, spec §3: `at(t) = origin + t·direction`. -/
def Ray.at (r : Ray) (t : ℚ) : Point3 := r.origin + r.direction.smul t

/-- `Quat` from `src/rayt/quat.rs`: vector part and scalar part (the source
stores them as an anonymous pair `Quat(Vec3, f64)`). -/
structure Quat where
  v : Vec3
  w : ℚ
  deriving DecidableEq, Repr

namespace Quat

/-- `Quat::from_rot`.  The source computes `(s, c) = (rad * 0.5).sin_cos()`;
the transcendental pair `(s, c)` is passed explicitly here (a genuine
axis/angle instance is any `(s, c)` with `s^2 + c^2 = 1`). -/
def from_rot (vec : Vec3) (s c : ℚ) : Quat := ⟨vec.smul s, c⟩

/-- `Quat::conj`: negate the vector part. -/
def conj (q : Quat) : Quat := ⟨-q.v, q.w⟩

/-- `Quat::rotate`, transcribed term by term from the source (including the
grouping of the `w` term, which is `(x1*x2 + y1*y2) - (z1*z2)` there). -/
def rotate (q : Quat) (p : Vec3) : Vec3 :=
  let x1 := q.v.x
  let y1 := q.v.y
  let z1 := q.v.z
  let w1 := q.w
  let x2 := p.x
  let y2 := p.y
  let z2 := p.z
  let x := (w1 * x2 + y1 * z2) - (z1 * y2)
  let y := (w1 * y2 + z1 * x2) - (x1 * z2)
  let z := (w1 * z2 + x1 * y2) - (y1 * x2)
  let w := (x1 * x2 + y1 * y2) - (z1 * z2)
  ⟨((w * x1 + x * w1) - y * z1) + z * y1,
   ((w * y1 + y * w1) - z * x1) + x * z1,
   ((w * z1 + z * w1) - x * y1) + y * x1⟩

end Quat

/-- The external `f64` primitives used by the core: `f64::sqrt`,
`f64::atan2`, `f64::asin` and the constant `PI`.  They are bundled so the
embedding can thread them through `hit`; theorems state explicitly which
analytic facts about `sqrt` they need. -/
structure Prim where
  sqrt : ℚ → ℚ
  atan2 : ℚ → ℚ → ℚ
  asin : ℚ → ℚ
  pi : ℚ

/-- `HitInfo` from `src/main.rs`.  The `Arc<dyn Material>` reference is
modelled as an opaque identifier `m : ℕ` (shape-level code never inspects
the material, it only stores and forwards the reference). -/
structure HitInfo where
  t : ℚ
  p : Point3
  n : Vec3
  m : ℕ
  u : ℚ
  v : ℚ
  deriving DecidableEq, Repr

/-- `ScatterInfo` from `src/main.rs`. -/
structure ScatterInfo where
  ray : Ray
  albedo : Color
  deriving DecidableEq, Repr

/-- `RectAxisType` from `src/main.rs`. -/
inductive RectAxisType where
  | XY
  | XZ
  | YZ
  deriving DecidableEq, Repr

/-- `Sphere::uv`: spherical texture coordinates from the unit normal. -/
def Sphere.uv (P : Prim) (p : Point3) : ℚ × ℚ :=
  let phi := P.atan2 p.z p.x
  let theta := P.asin p.y
  (1 - (phi + P.pi) / (2 * P.pi), (theta + P.pi / 2) / P.pi)

/-- The shape hierarchy of `src/main.rs` (`Sphere`, `Rect`, the decorators
`FlipFace`/`Translate`/`Rotate`, and `ShapeList`), as one inductive type.
`Rotate` stores the quaternion its constructor builds with `Quat::from_rot`. -/
inductive ShapeT where
  | sphere (center : Point3) (radius : ℚ) (material : ℕ)
  | rect (x0 x1 y0 y1 k : ℚ) (axis : RectAxisType) (material : ℕ)
  | flipFace (shape : ShapeT)
  | translate (shape : ShapeT) (offset : Point3)
  | rotate (shape : ShapeT) (quat : Quat)
  | shapeList (objects : List ShapeT)

/-- `impl Shape for Sphere :: hit`, transcribed from `src/main.rs` lines
50-77.  `P.sqrt` stands for `f64::sqrt`. -/
def sphereHit (P : Prim) (center : Point3) (radius : ℚ) (material : ℕ)
    (ray : Ray) (t0 t1 : ℚ) : Option HitInfo :=
  let oc := ray.origin - center
  let a := ray.direction.dot ray.direction
  let b := 2 * ray.direction.dot oc
  let c := oc.dot oc - radius ^ 2
  let d := b * b - 4 * a * c
  if 0 < d then
    let temp := (-b - P.sqrt d) / (2 * a)
    if t0 < temp ∧ temp < t1 then
      let p := ray.at temp
      let n := (p - center).divScalar radius
      some ⟨temp, p, n, material, (Sphere.uv P n).1, (Sphere.uv P n).2⟩
    else
      let temp2 := (-b + P.sqrt d) / (2 * a)
      if t0 < temp2 ∧ temp2 < t1 then
        let p := ray.at temp2
        let n := (p - center).divScalar radius
        some ⟨temp2, p, n, material, (Sphere.uv P n).1, (Sphere.uv P n).2⟩
      else none
  else none

/-- `impl Shape for Rect :: hit`, transcribed from `src/main.rs` lines
117-153: permute the ray into the canonical XY frame, solve for the plane
crossing, bounds-check (non-strictly) against the rectangle and the ray
interval. -/
def rectHit (x0 x1 y0 y1 k : ℚ) (axis : RectAxisType) (material : ℕ)
    (ray : Ray) (t0 t1 : ℚ) : Option HitInfo :=
  let origin : Point3 :=
    match axis with
    | .XY => ray.origin
    | .XZ => ⟨ray.origin.x, ray.origin.z, ray.origin.y⟩
    | .YZ => ⟨ray.origin.y, ray.origin.z, ray.origin.x⟩
  let direction : Vec3 :=
    match axis with
    | .XY => ray.direction
    | .XZ => ⟨ray.direction.x, ray.direction.z, ray.direction.y⟩
    | .YZ => ⟨ray.direction.y, ray.direction.z, ray.direction.x⟩
  let axisv : Vec3 :=
    match axis with
    | .XY => Float3.zaxis
    | .XZ => Float3.yaxis
    | .YZ => Float3.xaxis
  let t := (k - origin.z) / direction.z
  if t < t0 ∨ t > t1 then none
  else
    let x := origin.x + t * direction.x
    let y := origin.y + t * direction.y
    if x < x0 ∨ x > x1 ∨ y < y0 ∨ y > y1 then none
    else
      some ⟨t, ray.at t, axisv, material,
            (x - x0) / (x1 - x0), (y - y0) / (y1 - y0)⟩

mutual

/-- `Shape::hit` for every variant, from `src/main.rs`: spheres and
rectangles by direct intersection, the decorators by delegation, and
`ShapeList` by the closest-so-far sweep `hitList`. -/
def ShapeT.hit (P : Prim) : ShapeT → Ray → ℚ → ℚ → Option HitInfo
  | .sphere center radius material, ray, t0, t1 =>
      sphereHit P center radius material ray t0 t1
  | .rect x0 x1 y0 y1 k axis material, ray, t0, t1 =>
      rectHit x0 x1 y0 y1 k axis material ray t0 t1
  | .flipFace shape, ray, t0, t1 =>
      match ShapeT.hit P shape ray t0 t1 with
      | some info => some { info with n := -info.n }
      | none => none
  | .translate shape offset, ray, t0, t1 =>
      match ShapeT.hit P shape ⟨ray.origin - offset, ray.direction⟩ t0 t1 with
      | some info => some { info with p := info.p + offset }
      | none => none
  | .rotate shape quat, ray, t0, t1 =>
      match ShapeT.hit P shape
              ⟨quat.conj.rotate ray.origin, quat.conj.rotate ray.direction⟩ t0 t1 with
      | some info => some { info with p := quat.rotate info.p, n := quat.rotate info.n }
      | none => none
  | .shapeList objects, ray, t0, t1 =>
      ShapeT.hitList P objects ray t0 t1 none

/-- The loop body of `impl Shape for ShapeList :: hit` (`src/main.rs` lines
304-316): iterate the children, shrinking `closest_so_far` to each new hit's
`t` and remembering that hit. -/
def ShapeT.hitList (P : Prim) :
    List ShapeT → Ray → ℚ → ℚ → Option HitInfo → Option HitInfo
  | [], _, _, _, hit_info => hit_info
  | object :: rest, ray, t0, closest_so_far, hit_info =>
      match ShapeT.hit P object ray t0 closest_so_far with
      | some info => ShapeT.hitList P rest ray t0 info.t (some info)
      | none => ShapeT.hitList P rest ray t0 closest_so_far hit_info

end

/-- A trivial primitive bundle for concrete evaluations: `sqrt`, `atan2`,
`asin` and `pi` all return 0 (rectangle intersections never consult them). -/
def Pzero : Prim := ⟨fun _ => 0, fun _ _ => 0, fun _ => 0, 0⟩

/-- A primitive bundle whose `sqrt` constantly returns 2, exact on the
discriminant value 4 used by the concrete witnesses. -/
def Ptwo : Prim := ⟨fun _ => 2, fun _ _ => 0, fun _ => 0, 0⟩

/-- The specification's comparison point for `ShapeList::hit` (spec §8:
"matching a direct per-shape scan taking the minimum t"): query every child
on the full interval and keep the first hit with minimal `t`.  Written from
the spec's words, to be compared with the sweep in `ShapeT.hit`. -/
def scanMin (P : Prim) (objects : List ShapeT) (ray : Ray) (t0 t1 : ℚ) :
    Option HitInfo :=
  objects.foldl
    (fun acc o =>
      match ShapeT.hit P o ray t0 t1 with
      | some info =>
          match acc with
          | some best => if info.t < best.t then some info else some best
          | none => some info
      | none => acc)
    none

/-- The exact value of `f64::MAX`, the upper ray bound passed by the scenes'
`trace` methods. -/
def f64MAX : ℚ := 2 ^ 1024 - 2 ^ 971

/-- `MAX_RAY_BOUNCE_DEPTH` from `src/rayt/render.rs` line 13. -/
def MAX_RAY_BOUNCE_DEPTH : ℕ := 50

/-- `CornelBoxScene::trace` (`src/main.rs` lines 1000-1017), generalised over
the scene's world shape, its background function, and the material dispatch
tables (`emitted` and `scatter`, indexed by the opaque material id; the
random scattering draw is folded into the `scatter` table).  The guard
`0 < depth` and the recursive call at `depth - 1` are transcribed from the
source. -/
def trace (P : Prim) (world : ShapeT) (background : Vec3 → Color)
    (emitted : ℕ → Ray → HitInfo → Color)
    (scatter : ℕ → Ray → HitInfo → Option ScatterInfo) : Ray → ℕ → Color
  | ray, depth =>
    match ShapeT.hit P world ray (1 / 1000) f64MAX with
    | some info =>
        let em := emitted info.m ray info
        match hsc : (if 0 < depth then scatter info.m ray info else none) with
        | some sc =>
            em + sc.albedo * trace P world background emitted scatter sc.ray (depth - 1)
        | none => em
    | none => background ray.direction
  termination_by ray depth => depth
  decreasing_by
    rcases Nat.eq_zero_or_pos depth with h0 | h0
    · rw [h0] at hsc
      simp at hsc
    · omega

/-- `Dielectric::schlick` (`src/main.rs` lines 387-390). -/
def Dielectric.schlick (cosine ri : ℚ) : ℚ :=
  let r0 := ((1 - ri) / (1 + ri)) ^ 2
  r0 + (1 - r0) * (1 - cosine) ^ 5

/-- Modelled from the spec: `Float3::refract` is called by
`Dielectric::scatter` but its definition is not among the provided sources.
Spec §4.1: normalize the incident vector, compute the Snell discriminant
`1 - ni_over_nt^2 * (1 - cos^2 θ)`, return `none` when it is not positive
(total internal reflection), and the Snell-law refracted direction
otherwise. -/
def Float3.refract (sqrt : ℚ → ℚ) (v normal : Float3) (ni_over_nt : ℚ) :
    Option Float3 :=
  let uv := v.normalize sqrt
  let dt := uv.dot normal
  let d := 1 - ni_over_nt ^ 2 * (1 - dt ^ 2)
  if 0 < d then
    some ((uv - normal.smul dt).smul (-ni_over_nt) - normal.smul (sqrt d))
  else none

/-- The tail of `Dielectric::scatter` after the
`let (outward_normal, ni_over_nt, cosine) = if dot > 0.0 {..} else {..}`
binding: try to refract, draw against the Schlick reflectance, fall back to
the specular reflection `ray.direction.reflect(hit.n)`. -/
def Dielectric.scatterBody (sqrt : ℚ → ℚ) (rnd ri : ℚ) (ray : Ray)
    (info : HitInfo) (outward_normal : Float3) (ni_over_nt cosine : ℚ) :
    Option ScatterInfo :=
  match Float3.refract sqrt (-ray.direction) outward_normal ni_over_nt with
  | some refracted =>
      if rnd > Dielectric.schlick cosine ri then
        some ⟨⟨info.p, refracted⟩, Float3.one⟩
      else some ⟨⟨info.p, ray.direction.reflect info.n⟩, Float3.one⟩
  | none => some ⟨⟨info.p, ray.direction.reflect info.n⟩, Float3.one⟩

/-- `impl Material for Dielectric :: scatter` (`src/main.rs` lines 393-411).
`rnd` stands for the random draw `Vec3::random_fill().x()` and `sqrt` for
`f64::sqrt` (consulted by `length` and `refract`).  The source's three-way
tuple binding over `dot > 0.0` is compiled as an `if` over the shared
continuation `scatterBody`. -/
def Dielectric.scatter (sqrt : ℚ → ℚ) (rnd : ℚ) (ri : ℚ) (ray : Ray)
    (info : HitInfo) : Option ScatterInfo :=
  if 0 < ray.direction.dot info.n then
    Dielectric.scatterBody sqrt rnd ri ray info (-info.n) ri
      (ri * ray.direction.dot info.n / ray.direction.length sqrt)
  else
    Dielectric.scatterBody sqrt rnd ri ray info info.n ri⁻¹
      (-ray.direction.dot info.n / ray.direction.length sqrt)

/-- `ImageTexture` (`src/main.rs` lines 456-460): a decoded row-major pixel
buffer with its dimensions (the decoding itself is an external
collaborator). -/
structure ImageTexture where
  pixels : List Color
  width : ℕ
  height : ℕ

/-- `ImageTexture::sample` (`src/main.rs` lines 477-494): clamp the integer
coordinates into `[0, width-1] × [0, height-1]` and index the buffer at
`tu + width * tv`.  The `Vec` access is modelled with `List.get?` so that
in-bounds-ness is a provable statement rather than a runtime panic. -/
def ImageTexture.sample (tex : ImageTexture) (u v : ℤ) : Option Color :=
  let tu : ℕ :=
    if u < 0 then 0
    else if tex.width ≤ u.toNat then tex.width - 1
    else u.toNat
  let tv : ℕ :=
    if v < 0 then 0
    else if tex.height ≤ v.toNat then tex.height - 1
    else v.toNat
  tex.pixels.get? (tu + tex.width * tv)

/-- Truncation toward zero: the behaviour of Rust's `as i64` cast on the
representable range (saturation and the NaN case need no separate model
here because the in-bounds theorem quantifies over every integer input). -/
def ratTrunc (q : ℚ) : ℤ := if 0 ≤ q then ⌊q⌋ else -⌊-q⌋

/-- `impl Texture for ImageTexture :: value` (`src/main.rs` lines 496-502):
scale `(u, 1-v)` by the image dimensions, truncate to integers and sample. -/
def ImageTexture.value (tex : ImageTexture) (u v : ℚ) (_p : Point3) :
    Option Color :=
  let x := ratTrunc (u * (tex.width : ℚ))
  let y := ratTrunc ((1 - v) * (tex.height : ℚ))
  tex.sample x y

/-! ### Unfolding lemmas for `ShapeT.hit` -/

lemma hit_sphere (P : Prim) (center : Point3) (radius : ℚ) (material : ℕ)
    (ray : Ray) (t0 t1 : ℚ) :
    ShapeT.hit P (.sphere center radius material) ray t0 t1 =
      sphereHit P center radius material ray t0 t1 := by
  rw [ShapeT.hit]

lemma hit_rect (P : Prim) (x0 x1 y0 y1 k : ℚ) (axis : RectAxisType) (material : ℕ)
    (ray : Ray) (t0 t1 : ℚ) :
    ShapeT.hit P (.rect x0 x1 y0 y1 k axis material) ray t0 t1 =
      rectHit x0 x1 y0 y1 k axis material ray t0 t1 := by
  rw [ShapeT.hit]

lemma hit_flipFace (P : Prim) (s : ShapeT) (ray : Ray) (t0 t1 : ℚ) :
    ShapeT.hit P (.flipFace s) ray t0 t1 =
      (ShapeT.hit P s ray t0 t1).map fun info => { info with n := -info.n } := by
  rw [ShapeT.hit]
  cases ShapeT.hit P s ray t0 t1 <;> rfl

lemma hit_translate (P : Prim) (s : ShapeT) (offset : Point3) (ray : Ray) (t0 t1 : ℚ) :
    ShapeT.hit P (.translate s offset) ray t0 t1 =
      (ShapeT.hit P s ⟨ray.origin - offset, ray.direction⟩ t0 t1).map
        fun info => { info with p := info.p + offset } := by
  rw [ShapeT.hit]
  cases ShapeT.hit P s ⟨ray.origin - offset, ray.direction⟩ t0 t1 <;> rfl

lemma hit_rotate (P : Prim) (s : ShapeT) (quat : Quat) (ray : Ray) (t0 t1 : ℚ) :
    ShapeT.hit P (.rotate s quat) ray t0 t1 =
      (ShapeT.hit P s ⟨quat.conj.rotate ray.origin, quat.conj.rotate ray.direction⟩ t0 t1).map
        fun info => { info with p := quat.rotate info.p, n := quat.rotate info.n } := by
  rw [ShapeT.hit]
  cases ShapeT.hit P s ⟨quat.conj.rotate ray.origin, quat.conj.rotate ray.direction⟩ t0 t1 <;> rfl

lemma hit_shapeList (P : Prim) (objects : List ShapeT) (ray : Ray) (t0 t1 : ℚ) :
    ShapeT.hit P (.shapeList objects) ray t0 t1 =
      ShapeT.hitList P objects ray t0 t1 none := by
  rw [ShapeT.hit]

lemma hitList_nil (P : Prim) (ray : Ray) (t0 c : ℚ) (a : Option HitInfo) :
    ShapeT.hitList P [] ray t0 c a = a := by
  rw [ShapeT.hitList]

lemma hitList_cons (P : Prim) (o : ShapeT) (rest : List ShapeT) (ray : Ray)
    (t0 c : ℚ) (a : Option HitInfo) :
    ShapeT.hitList P (o :: rest) ray t0 c a =
      match ShapeT.hit P o ray t0 c with
      | some info => ShapeT.hitList P rest ray t0 info.t (some info)
      | none => ShapeT.hitList P rest ray t0 c a := by
  rw [ShapeT.hitList]

/-! ### Interval behaviour of `hit`

`Sound`: a reported hit lies (non-strictly) inside the query interval.
`NoneMono`: shrinking the upper bound can only remove hits.
`Keep`: a hit strictly below a shrunken upper bound is still reported there.
`Lift`: a hit reported on a shrunken interval is the hit reported on the
wider one.  These are exactly the facts the closest-so-far sweep of
`ShapeList::hit` relies on. -/

def Sound (P : Prim) (s : ShapeT) : Prop :=
  ∀ ray t0 t1 j, ShapeT.hit P s ray t0 t1 = some j → t0 ≤ j.t ∧ j.t ≤ t1

def NoneMono (P : Prim) (s : ShapeT) : Prop :=
  ∀ ray t0 t1 t1', t1' ≤ t1 → ShapeT.hit P s ray t0 t1 = none →
    ShapeT.hit P s ray t0 t1' = none

def Keep (P : Prim) (s : ShapeT) : Prop :=
  ∀ ray t0 t1 t1' j, t1' ≤ t1 → ShapeT.hit P s ray t0 t1 = some j → j.t < t1' →
    ShapeT.hit P s ray t0 t1' = some j

def Lift (P : Prim) (s : ShapeT) : Prop :=
  ∀ ray t0 t1 t1' j, t1' ≤ t1 → ShapeT.hit P s ray t0 t1' = some j →
    ShapeT.hit P s ray t0 t1 = some j

def Good (P : Prim) (s : ShapeT) : Prop :=
  NoneMono P s ∧ Keep P s ∧ Lift P s

/-! ### Abstract two-root candidate trees

`sphereHit` zeta-reduces to an if-tree over the two quadratic roots; the
interval lemmas are proved once for that abstract shape and then
instantiated with the concrete root expressions. -/

section IfTree

variable {d r1 r2 : ℚ} {i1 i2 : HitInfo}

lemma ifTree_sound (t0 t1 : ℚ) (ht1 : i1.t = r1) (ht2 : i2.t = r2) (j : HitInfo)
    (h : (if 0 < d then
            (if t0 < r1 ∧ r1 < t1 then some i1
             else if t0 < r2 ∧ r2 < t1 then some i2 else none)
          else none) = some j) :
    t0 ≤ j.t ∧ j.t ≤ t1 := by
  by_cases hd : 0 < d
  · rw [if_pos hd] at h
    by_cases h1 : t0 < r1 ∧ r1 < t1
    · rw [if_pos h1] at h
      obtain rfl := Option.some.inj h
      rw [ht1]
      exact ⟨le_of_lt h1.1, le_of_lt h1.2⟩
    · rw [if_neg h1] at h
      by_cases h2 : t0 < r2 ∧ r2 < t1
      · rw [if_pos h2] at h
        obtain rfl := Option.some.inj h
        rw [ht2]
        exact ⟨le_of_lt h2.1, le_of_lt h2.2⟩
      · rw [if_neg h2] at h
        exact absurd h (by simp)
  · rw [if_neg hd] at h
    exact absurd h (by simp)

lemma ifTree_noneMono (t0 t1 t1' : ℚ) (hle : t1' ≤ t1)
    (h : (if 0 < d then
            (if t0 < r1 ∧ r1 < t1 then some i1
             else if t0 < r2 ∧ r2 < t1 then some i2 else none)
          else none) = none) :
    (if 0 < d then
       (if t0 < r1 ∧ r1 < t1' then some i1
        else if t0 < r2 ∧ r2 < t1' then some i2 else none)
     else none) = none := by
  by_cases hd : 0 < d
  · rw [if_pos hd] at h ⊢
    by_cases h1 : t0 < r1 ∧ r1 < t1
    · rw [if_pos h1] at h
      exact absurd h (by simp)
    · rw [if_neg h1] at h
      by_cases h2 : t0 < r2 ∧ r2 < t1
      · rw [if_pos h2] at h
        exact absurd h (by simp)
      · have h1' : ¬(t0 < r1 ∧ r1 < t1') := by
          rintro ⟨ha, hb⟩
          exact h1 ⟨ha, by linarith⟩
        have h2' : ¬(t0 < r2 ∧ r2 < t1') := by
          rintro ⟨ha, hb⟩
          exact h2 ⟨ha, by linarith⟩
        rw [if_neg h1', if_neg h2']
  · rw [if_neg hd]

lemma ifTree_keep (t0 t1 t1' : ℚ) (ht1 : i1.t = r1) (ht2 : i2.t = r2) (j : HitInfo)
    (hle : t1' ≤ t1)
    (h : (if 0 < d then
            (if t0 < r1 ∧ r1 < t1 then some i1
             else if t0 < r2 ∧ r2 < t1 then some i2 else none)
          else none) = some j)
    (hjt : j.t < t1') :
    (if 0 < d then
       (if t0 < r1 ∧ r1 < t1' then some i1
        else if t0 < r2 ∧ r2 < t1' then some i2 else none)
     else none) = some j := by
  by_cases hd : 0 < d
  · rw [if_pos hd] at h ⊢
    by_cases h1 : t0 < r1 ∧ r1 < t1
    · rw [if_pos h1] at h
      obtain rfl := Option.some.inj h
      rw [ht1] at hjt
      rw [if_pos ⟨h1.1, hjt⟩]
    · rw [if_neg h1] at h
      by_cases h2 : t0 < r2 ∧ r2 < t1
      · rw [if_pos h2] at h
        obtain rfl := Option.some.inj h
        rw [ht2] at hjt
        have h1' : ¬(t0 < r1 ∧ r1 < t1') := by
          rintro ⟨ha, hb⟩
          exact h1 ⟨ha, by linarith⟩
        rw [if_neg h1', if_pos ⟨h2.1, hjt⟩]
      · rw [if_neg h2] at h
        exact absurd h (by simp)
  · rw [if_neg hd] at h
    exact absurd h (by simp)

lemma ifTree_lift (t0 t1 t1' : ℚ) (hr : 0 < d → r1 ≤ r2) (j : HitInfo)
    (hle : t1' ≤ t1)
    (h : (if 0 < d then
            (if t0 < r1 ∧ r1 < t1' then some i1
             else if t0 < r2 ∧ r2 < t1' then some i2 else none)
          else none) = some j) :
    (if 0 < d then
       (if t0 < r1 ∧ r1 < t1 then some i1
        else if t0 < r2 ∧ r2 < t1 then some i2 else none)
     else none) = some j := by
  by_cases hd : 0 < d
  · rw [if_pos hd] at h ⊢
    by_cases h1' : t0 < r1 ∧ r1 < t1'
    · rw [if_pos h1'] at h
      rw [if_pos ⟨h1'.1, lt_of_lt_of_le h1'.2 hle⟩]
      exact h
    · rw [if_neg h1'] at h
      by_cases h2' : t0 < r2 ∧ r2 < t1'
      · rw [if_pos h2'] at h
        have h1 : ¬(t0 < r1 ∧ r1 < t1) := by
          rintro ⟨ha, hb⟩
          rcases not_and_or.mp h1' with hc | hc
          · exact hc ha
          · have hta : t1' ≤ r1 := not_lt.mp hc
            have := hr hd
            linarith [h2'.2]
        rw [if_neg h1, if_pos ⟨h2'.1, lt_of_lt_of_le h2'.2 hle⟩]
        exact h
      · rw [if_neg h2'] at h
        exact absurd h (by simp)
  · rw [if_neg hd] at h
    exact absurd h (by simp)

end IfTree

/-! ### Abstract single-candidate trees for `rectHit` -/

section RectTree

variable {t : ℚ} {X : Prop} [Decidable X] {i : HitInfo}

lemma rectTree_sound (t0 t1 : ℚ) (hti : i.t = t) (j : HitInfo)
    (h : (if t < t0 ∨ t > t1 then none else if X then none else some i) = some j) :
    t0 ≤ j.t ∧ j.t ≤ t1 := by
  by_cases hb : t < t0 ∨ t > t1
  · rw [if_pos hb] at h
    exact absurd h (by simp)
  · rw [if_neg hb] at h
    by_cases hx : X
    · rw [if_pos hx] at h
      exact absurd h (by simp)
    · rw [if_neg hx] at h
      obtain rfl := Option.some.inj h
      rw [hti]
      push_neg at hb
      exact ⟨hb.1, hb.2⟩

lemma rectTree_noneMono (t0 t1 t1' : ℚ) (hle : t1' ≤ t1)
    (h : (if t < t0 ∨ t > t1 then none else if X then none else some i) = none) :
    (if t < t0 ∨ t > t1' then none else if X then none else some i) = none := by
  by_cases hb' : t < t0 ∨ t > t1'
  · rw [if_pos hb']
  · rw [if_neg hb']
    push_neg at hb'
    have hb : ¬(t < t0 ∨ t > t1) := by
      push_neg
      exact ⟨hb'.1, le_trans hb'.2 hle⟩
    rw [if_neg hb] at h
    exact h

lemma rectTree_keep (t0 t1 t1' : ℚ) (hti : i.t = t) (j : HitInfo) (hle : t1' ≤ t1)
    (h : (if t < t0 ∨ t > t1 then none else if X then none else some i) = some j)
    (hjt : j.t < t1') :
    (if t < t0 ∨ t > t1' then none else if X then none else some i) = some j := by
  by_cases hb : t < t0 ∨ t > t1
  · rw [if_pos hb] at h
    exact absurd h (by simp)
  · rw [if_neg hb] at h
    by_cases hx : X
    · rw [if_pos hx] at h
      exact absurd h (by simp)
    · rw [if_neg hx] at h
      obtain rfl := Option.some.inj h
      rw [hti] at hjt
      push_neg at hb
      have hb' : ¬(t < t0 ∨ t > t1') := by
        push_neg
        exact ⟨hb.1, le_of_lt hjt⟩
      rw [if_neg hb', if_neg hx]

lemma rectTree_lift (t0 t1 t1' : ℚ) (j : HitInfo) (hle : t1' ≤ t1)
    (h : (if t < t0 ∨ t > t1' then none else if X then none else some i) = some j) :
    (if t < t0 ∨ t > t1 then none else if X then none else some i) = some j := by
  by_cases hb' : t < t0 ∨ t > t1'
  · rw [if_pos hb'] at h
    exact absurd h (by simp)
  · rw [if_neg hb'] at h
    push_neg at hb'
    have hb : ¬(t < t0 ∨ t > t1) := by
      push_neg
      exact ⟨hb'.1, le_trans hb'.2 hle⟩
    rw [if_neg hb]
    exact h

end RectTree

/-! ### Sphere and Rect satisfy the interval properties -/

lemma Float3.dot_self_nonneg (v : Float3) : 0 ≤ v.dot v :=
  add_nonneg (add_nonneg (mul_self_nonneg _) (mul_self_nonneg _)) (mul_self_nonneg _)

lemma roots_ordered (a b s : ℚ) (ha : 0 ≤ a) (hs : 0 ≤ s) :
    (-b - s) / (2 * a) ≤ (-b + s) / (2 * a) := by
  rcases eq_or_lt_of_le ha with h | h
  · rw [← h]
    norm_num
  · rw [div_le_div_iff₀ (by linarith) (by linarith)]
    nlinarith

lemma sound_sphere (P : Prim) (center : Point3) (radius : ℚ) (material : ℕ) :
    Sound P (.sphere center radius material) := by
  intro ray t0 t1 j h
  rw [hit_sphere] at h
  simp only [sphereHit] at h
  refine ifTree_sound t0 t1 ?_ ?_ j h <;> rfl

lemma good_sphere (P : Prim) (hsqrt : ∀ x : ℚ, 0 < x → 0 ≤ P.sqrt x)
    (center : Point3) (radius : ℚ) (material : ℕ) :
    Good P (.sphere center radius material) := by
  refine ⟨?_, ?_, ?_⟩
  · intro ray t0 t1 t1' hle h
    rw [hit_sphere] at h ⊢
    simp only [sphereHit] at h ⊢
    exact ifTree_noneMono t0 t1 t1' hle h
  · intro ray t0 t1 t1' j hle h hjt
    rw [hit_sphere] at h ⊢
    simp only [sphereHit] at h ⊢
    refine ifTree_keep t0 t1 t1' ?_ ?_ j hle h hjt <;> rfl
  · intro ray t0 t1 t1' j hle h
    rw [hit_sphere] at h ⊢
    simp only [sphereHit] at h ⊢
    refine ifTree_lift t0 t1 t1' ?_ j hle h
    intro hd
    exact roots_ordered _ _ _ (Float3.dot_self_nonneg ray.direction) (hsqrt _ hd)

lemma sound_rect (P : Prim) (x0 x1 y0 y1 k : ℚ) (axis : RectAxisType) (material : ℕ) :
    Sound P (.rect x0 x1 y0 y1 k axis material) := by
  intro ray t0 t1 j h
  rw [hit_rect] at h
  cases axis <;>
    · simp only [rectHit] at h
      refine rectTree_sound t0 t1 ?_ j h
      rfl

lemma good_rect (P : Prim) (x0 x1 y0 y1 k : ℚ) (axis : RectAxisType) (material : ℕ) :
    Good P (.rect x0 x1 y0 y1 k axis material) := by
  refine ⟨?_, ?_, ?_⟩
  · intro ray t0 t1 t1' hle h
    rw [hit_rect] at h ⊢
    cases axis <;>
      · simp only [rectHit] at h ⊢
        exact rectTree_noneMono t0 t1 t1' hle h
  · intro ray t0 t1 t1' j hle h hjt
    rw [hit_rect] at h ⊢
    cases axis <;>
      · simp only [rectHit] at h ⊢
        refine rectTree_keep t0 t1 t1' ?_ j hle h hjt
        rfl
  · intro ray t0 t1 t1' j hle h
    rw [hit_rect] at h ⊢
    cases axis <;>
      · simp only [rectHit] at h ⊢
        exact rectTree_lift t0 t1 t1' j hle h

/-! ### Decorators preserve the interval properties

`FlipFace`, `Translate` and `Rotate` all delegate to the wrapped shape on a
transformed ray and post-process the hit record without touching `t`. -/

section MapDecorator

variable {P : Prim} {big small : ShapeT} {tr : Ray → Ray} {g : HitInfo → HitInfo}

lemma sound_of_map (hdef : ∀ ray t0 t1, ShapeT.hit P big ray t0 t1 =
      (ShapeT.hit P small (tr ray) t0 t1).map g)
    (hg : ∀ h : HitInfo, (g h).t = h.t)
    (hs : Sound P small) : Sound P big := by
  intro ray t0 t1 j h
  rw [hdef] at h
  cases hin : ShapeT.hit P small (tr ray) t0 t1 with
  | none =>
      rw [hin] at h
      exact absurd h (by simp)
  | some j0 =>
      rw [hin] at h
      simp only [Option.map_some'] at h
      obtain rfl := Option.some.inj h
      rw [hg]
      exact hs (tr ray) t0 t1 j0 hin

lemma good_of_map (hdef : ∀ ray t0 t1, ShapeT.hit P big ray t0 t1 =
      (ShapeT.hit P small (tr ray) t0 t1).map g)
    (hg : ∀ h : HitInfo, (g h).t = h.t)
    (hs : Good P small) : Good P big := by
  obtain ⟨hnm, hkeep, hlift⟩ := hs
  refine ⟨?_, ?_, ?_⟩
  · intro ray t0 t1 t1' hle h
    rw [hdef] at h ⊢
    cases hin : ShapeT.hit P small (tr ray) t0 t1 with
    | none => rw [hnm (tr ray) t0 t1 t1' hle hin]; rfl
    | some j0 => rw [hin] at h; exact absurd h (by simp)
  · intro ray t0 t1 t1' j hle h hjt
    rw [hdef] at h ⊢
    cases hin : ShapeT.hit P small (tr ray) t0 t1 with
    | none => rw [hin] at h; exact absurd h (by simp)
    | some j0 =>
        rw [hin] at h
        simp only [Option.map_some'] at h
        obtain rfl := Option.some.inj h
        rw [hg] at hjt
        rw [hkeep (tr ray) t0 t1 t1' j0 hle hin hjt]
        rfl
  · intro ray t0 t1 t1' j hle h
    rw [hdef] at h ⊢
    cases hin : ShapeT.hit P small (tr ray) t0 t1' with
    | none => rw [hin] at h; exact absurd h (by simp)
    | some j0 =>
        rw [hin] at h
        rw [hlift (tr ray) t0 t1 t1' j0 hle hin]
        exact h

end MapDecorator

/-! ### The closest-so-far sweep over a list of children -/

section ListSweep

variable (P : Prim) (ray : Ray) (t0 : ℚ)

lemma hitList_acc_ne_none : ∀ (objs : List ShapeT) (c : ℚ) (i : HitInfo),
    ShapeT.hitList P objs ray t0 c (some i) ≠ none := by
  intro objs
  induction objs with
  | nil =>
      intro c i
      rw [hitList_nil]
      simp
  | cons o rest ih =>
      intro c i
      rw [hitList_cons]
      cases h : ShapeT.hit P o ray t0 c with
      | some info => exact ih info.t info
      | none => exact ih c i

lemma hitList_none_iff (t1 : ℚ) : ∀ (objs : List ShapeT),
    (ShapeT.hitList P objs ray t0 t1 none = none ↔
      ∀ o ∈ objs, ShapeT.hit P o ray t0 t1 = none) := by
  intro objs
  induction objs with
  | nil =>
      rw [hitList_nil]
      simp
  | cons o rest ih =>
      rw [hitList_cons]
      cases h : ShapeT.hit P o ray t0 t1 with
      | some info =>
          constructor
          · intro hcon
            exact absurd hcon (hitList_acc_ne_none P ray t0 rest info.t info)
          · intro hall
            have hcontra := hall o (List.mem_cons_self o rest)
            rw [hcontra] at h
            exact absurd h (by simp)
      | none =>
          rw [ih]
          constructor
          · intro hall o' ho'
            rcases List.mem_cons.mp ho' with rfl | hm
            · exact h
            · exact hall o' hm
          · intro hall o' ho'
            exact hall o' (List.mem_cons.mpr (Or.inr ho'))

lemma hitList_sound : ∀ (objs : List ShapeT), (∀ o ∈ objs, Sound P o) →
    ∀ (c : ℚ) (a : Option HitInfo) (j : HitInfo),
      (∀ i, a = some i → t0 ≤ i.t ∧ i.t ≤ c) →
      ShapeT.hitList P objs ray t0 c a = some j →
      t0 ≤ j.t ∧ j.t ≤ c := by
  intro objs
  induction objs with
  | nil =>
      intro _ c a j hinv h
      rw [hitList_nil] at h
      exact hinv j h
  | cons o rest ih =>
      intro hchild c a j hinv h
      rw [hitList_cons] at h
      have hso := hchild o (List.mem_cons_self o rest)
      have hrest : ∀ o' ∈ rest, Sound P o' := fun o' ho' =>
        hchild o' (List.mem_cons.mpr (Or.inr ho'))
      cases hq : ShapeT.hit P o ray t0 c with
      | some info =>
          rw [hq] at h
          have hb := hso ray t0 c info hq
          have := ih hrest info.t (some info) j
            (fun i hi => by obtain rfl := Option.some.inj hi; exact ⟨hb.1, le_refl _⟩) h
          exact ⟨this.1, le_trans this.2 hb.2⟩
      | none =>
          rw [hq] at h
          exact ih hrest c a j hinv h

end ListSweep

section ListSweepMin

variable (P : Prim) (ray : Ray) (t0 : ℚ)

/-- Characterisation of a run of the sweep: the final hit is a hit some
child reports on the reference interval `(t0, t1)`, it is minimal among all
such reports, it beats the incoming accumulator, and it lies in `(t0, c]`. -/
lemma hitList_min (t1 : ℚ) : ∀ (objs : List ShapeT),
    (∀ o ∈ objs, Sound P o ∧ Good P o) →
    ∀ (c : ℚ) (a : Option HitInfo) (j : HitInfo),
      (∀ i, a = some i → t0 ≤ i.t ∧ i.t = c) → c ≤ t1 →
      ShapeT.hitList P objs ray t0 c a = some j →
      (a = some j ∨ ∃ o ∈ objs, ShapeT.hit P o ray t0 t1 = some j) ∧
      (∀ o ∈ objs, ∀ k, ShapeT.hit P o ray t0 t1 = some k → j.t ≤ k.t) ∧
      (∀ i, a = some i → j.t ≤ i.t) ∧
      (t0 ≤ j.t ∧ j.t ≤ c) := by
  intro objs
  induction objs with
  | nil =>
      intro _ c a j hinv hc h
      rw [hitList_nil] at h
      obtain ⟨h1, h2⟩ := hinv j h
      refine ⟨Or.inl h, ?_, ?_, h1, le_of_eq h2⟩
      · intro o ho
        exact absurd ho (List.not_mem_nil o)
      · intro i hi
        rw [h] at hi
        obtain rfl := Option.some.inj hi
        exact le_refl _
  | cons o rest ih =>
      intro hchild c a j hinv hc h
      rw [hitList_cons] at h
      have hgo := hchild o (List.mem_cons_self o rest)
      have hrest : ∀ o' ∈ rest, Sound P o' ∧ Good P o' := fun o' ho' =>
        hchild o' (List.mem_cons.mpr (Or.inr ho'))
      cases hq : ShapeT.hit P o ray t0 c with
      | some i' =>
          rw [hq] at h
          have hbounds := hgo.1 ray t0 c i' hq
          obtain ⟨ihB, ihC, ihD, ihA⟩ := ih hrest i'.t (some i') j
            (fun i hi => by obtain rfl := Option.some.inj hi; exact ⟨hbounds.1, rfl⟩)
            (le_trans hbounds.2 hc) h
          have hjle : j.t ≤ i'.t := ihD i' rfl
          have hfull : ShapeT.hit P o ray t0 t1 = some i' :=
            hgo.2.2.2 ray t0 t1 c i' hc hq
          refine ⟨?_, ?_, ?_, ihA.1, le_trans ihA.2 hbounds.2⟩
          · rcases ihB with hacc | ⟨o', ho', h'⟩
            · obtain rfl := Option.some.inj hacc
              exact Or.inr ⟨o, List.mem_cons_self o rest, hfull⟩
            · exact Or.inr ⟨o', List.mem_cons.mpr (Or.inr ho'), h'⟩
          · intro o'' ho'' k hk
            rcases List.mem_cons.mp ho'' with rfl | hm
            · rw [hfull] at hk
              obtain rfl := Option.some.inj hk
              exact hjle
            · exact ihC o'' hm k hk
          · intro i hi
            obtain ⟨hi1, hi2⟩ := hinv i hi
            rw [← hi2] at hbounds
            exact le_trans hjle hbounds.2
      | none =>
          rw [hq] at h
          obtain ⟨ihB, ihC, ihD, ihA⟩ := ih hrest c a j hinv hc h
          refine ⟨?_, ?_, ihD, ihA⟩
          · rcases ihB with hacc | ⟨o', ho', h'⟩
            · exact Or.inl hacc
            · exact Or.inr ⟨o', List.mem_cons.mpr (Or.inr ho'), h'⟩
          · intro o'' ho'' k hk
            rcases List.mem_cons.mp ho'' with rfl | hm
            · by_cases hkc : k.t < c
              · have hkeep := hgo.2.2.1 ray t0 t1 c k hc hk hkc
                rw [hkeep] at hq
                exact absurd hq (by simp)
              · push_neg at hkc
                exact le_trans ihA.2 hkc
            · exact ihC o'' hm k hk

/-- Two runs of the sweep on nested upper bounds: either they agree, or the
tighter run reports nothing and everything the wider run reports lies at or
above the tighter bound. -/
lemma hitList_sim : ∀ (objs : List ShapeT),
    (∀ o ∈ objs, Sound P o ∧ Good P o) →
    ∀ (c1 c2 : ℚ) (a2 : Option HitInfo), c1 ≤ c2 →
      (∀ i, a2 = some i → i.t = c2 ∧ t0 ≤ i.t) →
      (ShapeT.hitList P objs ray t0 c1 none = ShapeT.hitList P objs ray t0 c2 a2 ∨
        (ShapeT.hitList P objs ray t0 c1 none = none ∧
          ∀ j, ShapeT.hitList P objs ray t0 c2 a2 = some j → c1 ≤ j.t)) := by
  intro objs
  induction objs with
  | nil =>
      intro _ c1 c2 a2 hle hinv
      rw [hitList_nil, hitList_nil]
      refine Or.inr ⟨rfl, ?_⟩
      intro j hj
      obtain ⟨h1, _⟩ := hinv j hj
      rw [h1]
      exact hle
  | cons o rest ih =>
      intro hchild c1 c2 a2 hle hinv
      rw [hitList_cons, hitList_cons]
      have hgo := hchild o (List.mem_cons_self o rest)
      have hrest : ∀ o' ∈ rest, Sound P o' ∧ Good P o' := fun o' ho' =>
        hchild o' (List.mem_cons.mpr (Or.inr ho'))
      cases hq2 : ShapeT.hit P o ray t0 c2 with
      | none =>
          have hq1 : ShapeT.hit P o ray t0 c1 = none :=
            hgo.2.1 ray t0 c2 c1 hle hq2
          rw [hq1]
          exact ih hrest c1 c2 a2 hle hinv
      | some k =>
          have hkb := hgo.1 ray t0 c2 k hq2
          by_cases hkc : k.t < c1
          · have hq1 : ShapeT.hit P o ray t0 c1 = some k :=
              hgo.2.2.1 ray t0 c2 c1 k hle hq2 hkc
            rw [hq1]
            exact Or.inl rfl
          · push_neg at hkc
            cases hq1 : ShapeT.hit P o ray t0 c1 with
            | some j1 =>
                have hlift : ShapeT.hit P o ray t0 c2 = some j1 :=
                  hgo.2.2.2 ray t0 c2 c1 j1 hle hq1
                rw [hq2] at hlift
                obtain rfl := Option.some.inj hlift
                exact Or.inl rfl
            | none =>
                exact ih hrest c1 k.t (some k) hkc
                  (fun i hi => by obtain rfl := Option.some.inj hi; exact ⟨rfl, hkb.1⟩)

end ListSweepMin

/-! ### Every shape satisfies the interval properties -/

lemma hit_props (P : Prim) (hsqrt : ∀ x : ℚ, 0 < x → 0 ≤ P.sqrt x) :
    ∀ (s : ShapeT), Sound P s ∧ Good P s := by
  have main : ∀ (n : ℕ) (s : ShapeT), sizeOf s = n → Sound P s ∧ Good P s := by
    intro n
    induction n using Nat.strong_induction_on with
    | _ n ih =>
      intro s hs
      cases s with
      | sphere center radius material =>
          exact ⟨sound_sphere P center radius material,
                 good_sphere P hsqrt center radius material⟩
      | rect x0 x1 y0 y1 k axis material =>
          exact ⟨sound_rect P x0 x1 y0 y1 k axis material,
                 good_rect P x0 x1 y0 y1 k axis material⟩
      | flipFace s' =>
          have hlt : sizeOf s' < n := by
            rw [← hs]
            simp
            try omega
          have hs' := ih (sizeOf s') hlt s' rfl
          exact ⟨sound_of_map (hit_flipFace P s') (fun _ => rfl) hs'.1,
                 good_of_map (hit_flipFace P s') (fun _ => rfl) hs'.2⟩
      | translate s' offset =>
          have hlt : sizeOf s' < n := by
            rw [← hs]
            simp
            try omega
          have hs' := ih (sizeOf s') hlt s' rfl
          exact ⟨sound_of_map (hit_translate P s' offset) (fun _ => rfl) hs'.1,
                 good_of_map (hit_translate P s' offset) (fun _ => rfl) hs'.2⟩
      | rotate s' quat =>
          have hlt : sizeOf s' < n := by
            rw [← hs]
            simp
            try omega
          have hs' := ih (sizeOf s') hlt s' rfl
          exact ⟨sound_of_map (hit_rotate P s' quat) (fun _ => rfl) hs'.1,
                 good_of_map (hit_rotate P s' quat) (fun _ => rfl) hs'.2⟩
      | shapeList objs =>
          have hchild : ∀ o ∈ objs, Sound P o ∧ Good P o := by
            intro o ho
            have hlt : sizeOf o < n := by
              have h1 := List.sizeOf_lt_of_mem ho
              have h2 : sizeOf (ShapeT.shapeList objs) = 1 + sizeOf objs := by simp
              omega
            exact ih (sizeOf o) hlt o rfl
          constructor
          · intro ray t0 t1 j h
            rw [hit_shapeList] at h
            exact hitList_sound P ray t0 objs (fun o ho => (hchild o ho).1) t1 none j
              (by simp) h
          · refine ⟨?_, ?_, ?_⟩
            · intro ray t0 t1 t1' hle h
              rw [hit_shapeList] at h ⊢
              rcases hitList_sim P ray t0 objs hchild t1' t1 none hle (by simp) with
                heq | ⟨hn, _⟩
              · rw [heq]
                exact h
              · exact hn
            · intro ray t0 t1 t1' j hle h hjt
              rw [hit_shapeList] at h ⊢
              rcases hitList_sim P ray t0 objs hchild t1' t1 none hle (by simp) with
                heq | ⟨hn, hmin⟩
              · rw [heq]
                exact h
              · exact absurd (hmin j h) (not_le.mpr hjt)
            · intro ray t0 t1 t1' j hle h
              rw [hit_shapeList] at h ⊢
              rcases hitList_sim P ray t0 objs hchild t1' t1 none hle (by simp) with
                heq | ⟨hn, _⟩
              · rw [← heq]
                exact h
              · rw [hn] at h
                exact absurd h (by simp)
  intro s
  exact main (sizeOf s) s rfl

/-- Soundness alone needs no assumption on `sqrt`: a parallel induction. -/
lemma hit_sound (P : Prim) : ∀ (s : ShapeT), Sound P s := by
  have main : ∀ (n : ℕ) (s : ShapeT), sizeOf s = n → Sound P s := by
    intro n
    induction n using Nat.strong_induction_on with
    | _ n ih =>
      intro s hs
      cases s with
      | sphere center radius material => exact sound_sphere P center radius material
      | rect x0 x1 y0 y1 k axis material => exact sound_rect P x0 x1 y0 y1 k axis material
      | flipFace s' =>
          have hlt : sizeOf s' < n := by
            rw [← hs]
            simp
            try omega
          exact sound_of_map (hit_flipFace P s') (fun _ => rfl) (ih (sizeOf s') hlt s' rfl)
      | translate s' offset =>
          have hlt : sizeOf s' < n := by
            rw [← hs]
            simp
            try omega
          exact sound_of_map (hit_translate P s' offset) (fun _ => rfl)
            (ih (sizeOf s') hlt s' rfl)
      | rotate s' quat =>
          have hlt : sizeOf s' < n := by
            rw [← hs]
            simp
            try omega
          exact sound_of_map (hit_rotate P s' quat) (fun _ => rfl) (ih (sizeOf s') hlt s' rfl)
      | shapeList objs =>
          have hchild : ∀ o ∈ objs, Sound P o := by
            intro o ho
            have hlt : sizeOf o < n := by
              have h1 := List.sizeOf_lt_of_mem ho
              have h2 : sizeOf (ShapeT.shapeList objs) = 1 + sizeOf objs := by simp
              omega
            exact ih (sizeOf o) hlt o rfl
          intro ray t0 t1 j h
          rw [hit_shapeList] at h
          exact hitList_sound P ray t0 objs hchild t1 none j (by simp) h
  intro s
  exact main (sizeOf s) s rfl

/-! ### Strict interval bounds for the sphere -/

lemma ifTree_sound_strict {d r1 r2 : ℚ} {i1 i2 : HitInfo} (t0 t1 : ℚ)
    (ht1 : i1.t = r1) (ht2 : i2.t = r2) (j : HitInfo)
    (h : (if 0 < d then
            (if t0 < r1 ∧ r1 < t1 then some i1
             else if t0 < r2 ∧ r2 < t1 then some i2 else none)
          else none) = some j) :
    t0 < j.t ∧ j.t < t1 := by
  by_cases hd : 0 < d
  · rw [if_pos hd] at h
    by_cases h1 : t0 < r1 ∧ r1 < t1
    · rw [if_pos h1] at h
      obtain rfl := Option.some.inj h
      rw [ht1]
      exact h1
    · rw [if_neg h1] at h
      by_cases h2 : t0 < r2 ∧ r2 < t1
      · rw [if_pos h2] at h
        obtain rfl := Option.some.inj h
        rw [ht2]
        exact h2
      · rw [if_neg h2] at h
        exact absurd h (by simp)
  · rw [if_neg hd] at h
    exact absurd h (by simp)

/-! ### Claim C1 -/

/-- C1 (amended): for every `ShapeList` (the empty list included), ray and
interval, the sweep returns `none` exactly when no child reports a hit on
the full interval, and any returned hit is a hit some child reports on the
full interval whose `t` is minimal among all children's reports.  Exact
equality with the first-minimum per-child scan fails on exact ties of the
minimal `t` (see the counterexample), which is the only amendment. -/
theorem shapeList_hit_nearest (P : Prim) (hsqrt : ∀ x : ℚ, 0 < x → 0 ≤ P.sqrt x)
    (objs : List ShapeT) (ray : Ray) (t0 t1 : ℚ) :
    (ShapeT.hit P (.shapeList objs) ray t0 t1 = none ↔
        ∀ o ∈ objs, ShapeT.hit P o ray t0 t1 = none) ∧
    (∀ j, ShapeT.hit P (.shapeList objs) ray t0 t1 = some j →
        (∃ o ∈ objs, ShapeT.hit P o ray t0 t1 = some j) ∧
        ∀ o ∈ objs, ∀ k, ShapeT.hit P o ray t0 t1 = some k → j.t ≤ k.t) := by
  constructor
  · rw [hit_shapeList]
    exact hitList_none_iff P ray t0 t1 objs
  · intro j h
    rw [hit_shapeList] at h
    have hchild : ∀ o ∈ objs, Sound P o ∧ Good P o := fun o _ => hit_props P hsqrt o
    obtain ⟨hB, hC, _, _⟩ :=
      hitList_min P ray t0 t1 objs hchild t1 none j (by simp) le_rfl h
    rcases hB with hacc | hex
    · exact absurd hacc (by simp)
    · exact ⟨hex, hC⟩

/-- C1 witness: the amended theorem applied to the empty list. -/
theorem shapeList_hit_nearest_witness :
    ShapeT.hit Pzero (.shapeList []) ⟨⟨0, 0, 0⟩, ⟨0, 0, 1⟩⟩ 0 1 = none :=
  (shapeList_hit_nearest Pzero (fun _ _ => le_refl 0) [] ⟨⟨0, 0, 0⟩, ⟨0, 0, 1⟩⟩ 0 1).1.mpr
    (fun o ho => absurd ho (List.not_mem_nil o))

/-- C1 counterexample: two identical rectangles in the plane `z = 1` are both
crossed at `t = 1`.  `Rect::hit`'s interval test is non-strict, so the sweep
(queried with `closest_so_far = 1`) replaces the first child's hit by the
second child's, while the direct first-minimum per-child scan keeps the
first child's hit: the two disagree (material id 2 versus 1). -/
theorem shapeList_hit_scan_counterexample :
    ShapeT.hit Pzero
        (.shapeList [.rect 0 1 0 1 1 .XY 1, .rect 0 1 0 1 1 .XY 2])
        ⟨⟨1/2, 1/2, 0⟩, ⟨0, 0, 1⟩⟩ 0 10 ≠
      scanMin Pzero [.rect 0 1 0 1 1 .XY 1, .rect 0 1 0 1 1 .XY 2]
        ⟨⟨1/2, 1/2, 0⟩, ⟨0, 0, 1⟩⟩ 0 10 := by
  have hL : ShapeT.hit Pzero
      (.shapeList [.rect 0 1 0 1 1 .XY 1, .rect 0 1 0 1 1 .XY 2])
      ⟨⟨1/2, 1/2, 0⟩, ⟨0, 0, 1⟩⟩ 0 10 =
      some ⟨1, ⟨1/2, 1/2, 1⟩, ⟨0, 0, 1⟩, 2, 1/2, 1/2⟩ := by
    rw [hit_shapeList, hitList_cons, hit_rect]
    norm_num [rectHit, Ray.at, Float3.zaxis, Float3.add_def, Float3.smul]
    rw [hitList_cons, hit_rect]
    norm_num [rectHit, Ray.at, Float3.zaxis, Float3.add_def, Float3.smul]
    rw [hitList_nil]
  have hR : scanMin Pzero [.rect 0 1 0 1 1 .XY 1, .rect 0 1 0 1 1 .XY 2]
      ⟨⟨1/2, 1/2, 0⟩, ⟨0, 0, 1⟩⟩ 0 10 =
      some ⟨1, ⟨1/2, 1/2, 1⟩, ⟨0, 0, 1⟩, 1, 1/2, 1/2⟩ := by
    simp only [scanMin, List.foldl_cons, List.foldl_nil, hit_rect]
    norm_num [rectHit, Ray.at, Float3.zaxis, Float3.add_def, Float3.smul]
  rw [hL, hR]
  simp

/-! ### Claim C3 -/

/-- C3 counterexample: the rectangle in the plane `z = 1` is crossed at
`t = 1` by the ray from `(1/2, 1/2, 0)` along `+z`; queried with the
interval `(1, 2)` the hit is still returned because `Rect::hit` rejects only
`t < t0 || t > t1`, so the returned `t` is NOT strictly greater than
`t_min`. -/
theorem rect_hit_boundary_counterexample :
    ∃ j, ShapeT.hit Pzero (.rect 0 1 0 1 1 .XY 3) ⟨⟨1/2, 1/2, 0⟩, ⟨0, 0, 1⟩⟩ 1 2 =
        some j ∧ ¬(1 < j.t) := by
  refine ⟨⟨1, ⟨1/2, 1/2, 1⟩, ⟨0, 0, 1⟩, 3, 1/2, 1/2⟩, ?_, by norm_num⟩
  rw [hit_rect]
  norm_num [rectHit, Ray.at, Float3.zaxis, Float3.add_def, Float3.smul]

/-- C3 (amended): every reported hit of every variant has its parametric
distance inside the closed interval `[t_min, t_max]`; the sphere's interval
comparisons are strict so its hits lie strictly inside, but `Rect::hit`'s
bounds check is non-strict and can report `t = t_min` or `t = t_max` (the
counterexample), which propagates through the decorators and `ShapeList`. -/
theorem hit_t_within_bounds :
    (∀ (P : Prim) (s : ShapeT) (ray : Ray) (t0 t1 : ℚ) (j : HitInfo),
        ShapeT.hit P s ray t0 t1 = some j → t0 ≤ j.t ∧ j.t ≤ t1) ∧
    (∀ (P : Prim) (center : Point3) (radius : ℚ) (material : ℕ) (ray : Ray)
        (t0 t1 : ℚ) (j : HitInfo),
        ShapeT.hit P (.sphere center radius material) ray t0 t1 = some j →
        t0 < j.t ∧ j.t < t1) := by
  constructor
  · intro P s ray t0 t1 j h
    exact hit_sound P s ray t0 t1 j h
  · intro P center radius material ray t0 t1 j h
    rw [hit_sphere] at h
    simp only [sphereHit] at h
    refine ifTree_sound_strict t0 t1 ?_ ?_ j h <;> rfl

/-- C3 witness: the bounds theorem applied to a concrete rectangle hit. -/
theorem hit_t_within_bounds_witness : (1 : ℚ) ≤ 1 ∧ (1 : ℚ) ≤ 2 := by
  have hJ : ShapeT.hit Pzero (.rect 0 1 0 1 1 .XY 4) ⟨⟨1/2, 1/2, 0⟩, ⟨0, 0, 1⟩⟩ 1 2 =
      some ⟨1, ⟨1/2, 1/2, 1⟩, ⟨0, 0, 1⟩, 4, 1/2, 1/2⟩ := by
    rw [hit_rect]
    norm_num [rectHit, Ray.at, Float3.zaxis, Float3.add_def, Float3.smul]
  exact hit_t_within_bounds.1 Pzero _ _ 1 2 _ hJ

/-! ### Claim C9 -/

/-- C9: `Translate::hit` equals the wrapped shape's `hit` on the ray whose
origin is shifted by `-offset` (same direction, same interval), with only
the hit point translated back by `+offset`; `t`, the normal, `(u, v)` and
the material reference are returned unchanged. -/
theorem translate_hit_delegates (P : Prim) (s : ShapeT) (offset : Point3)
    (ray : Ray) (t0 t1 : ℚ) :
    (ShapeT.hit P (.translate s offset) ray t0 t1 = none ↔
        ShapeT.hit P s ⟨ray.origin - offset, ray.direction⟩ t0 t1 = none) ∧
    (∀ j, ShapeT.hit P s ⟨ray.origin - offset, ray.direction⟩ t0 t1 = some j →
        ShapeT.hit P (.translate s offset) ray t0 t1 =
          some ⟨j.t, j.p + offset, j.n, j.m, j.u, j.v⟩) := by
  constructor
  · rw [hit_translate]
    cases h : ShapeT.hit P s ⟨ray.origin - offset, ray.direction⟩ t0 t1 <;> simp [h]
  · intro j hj
    rw [hit_translate, hj]
    rfl

/-- C9 witness: the delegation theorem applied to a translated rectangle. -/
theorem translate_hit_delegates_witness :
    ShapeT.hit Pzero (.translate (.rect 0 1 0 1 1 .XY 5) ⟨10, 0, 0⟩)
        ⟨⟨21/2, 1/2, 0⟩, ⟨0, 0, 1⟩⟩ 0 2 =
      some ⟨1, ⟨21/2, 1/2, 1⟩, ⟨0, 0, 1⟩, 5, 1/2, 1/2⟩ := by
  have hj : ShapeT.hit Pzero (.rect 0 1 0 1 1 .XY 5)
      ⟨(⟨21/2, 1/2, 0⟩ : Float3) - ⟨10, 0, 0⟩, ⟨0, 0, 1⟩⟩ 0 2 =
      some ⟨1, ⟨1/2, 1/2, 1⟩, ⟨0, 0, 1⟩, 5, 1/2, 1/2⟩ := by
    rw [hit_rect]
    norm_num [rectHit, Ray.at, Float3.sub_def, Float3.add_def, Float3.smul, Float3.zaxis]
  have hmain := (translate_hit_delegates Pzero (.rect 0 1 0 1 1 .XY 5) ⟨10, 0, 0⟩
      ⟨⟨21/2, 1/2, 0⟩, ⟨0, 0, 1⟩⟩ 0 2).2 _ hj
  rw [hmain]
  norm_num [Float3.add_def]

/-! ### Claim C2: sphere intersection -/

lemma dir_a_ne_zero (v oc : Float3) (c : ℚ)
    (hd : 0 < (2 * v.dot oc) * (2 * v.dot oc) - 4 * v.dot v * c) :
    v.dot v ≠ 0 := by
  intro h0
  have hx : v.x = 0 ∧ v.y = 0 ∧ v.z = 0 := by
    simp only [Float3.dot] at h0
    refine ⟨?_, ?_, ?_⟩ <;>
      nlinarith [mul_self_nonneg v.x, mul_self_nonneg v.y, mul_self_nonneg v.z]
  have hb : v.dot oc = 0 := by
    simp [Float3.dot, hx.1, hx.2.1, hx.2.2]
  rw [h0, hb] at hd
  norm_num at hd

lemma root_of_sqrt (a b c d s : ℚ) (hd : d = b * b - 4 * a * c) (hs : s * s = d)
    (ha : a ≠ 0) :
    a * ((-b - s) / (2 * a)) ^ 2 + b * ((-b - s) / (2 * a)) + c = 0 := by
  field_simp
  ring_nf
  linear_combination (a ^ 2 * 2) * hs + (a ^ 2 * 2) * hd

lemma sphere_normal_unit (center : Point3) (radius : ℚ) (ray : Ray) (r : ℚ)
    (hroot : ray.direction.dot ray.direction * r ^ 2 +
        2 * ray.direction.dot (ray.origin - center) * r +
        ((ray.origin - center).dot (ray.origin - center) - radius ^ 2) = 0)
    (hr : 0 < radius) :
    ((ray.at r - center).divScalar radius).length_squered = 1 ∧
    0 < ((ray.at r - center).divScalar radius).dot (ray.at r - center) := by
  have hlen : (ray.at r - center).dot (ray.at r - center) = radius ^ 2 := by
    simp only [Ray.at, Float3.dot, Float3.add_def, Float3.sub_def, Float3.smul] at hroot ⊢
    ring_nf
    ring_nf at hroot
    linarith [hroot]
  have hrne : radius ≠ 0 := ne_of_gt hr
  constructor
  · simp only [Float3.length_squered, Float3.divScalar]
    have : (ray.at r - center).dot (ray.at r - center) =
        (ray.at r - center).x * (ray.at r - center).x +
        (ray.at r - center).y * (ray.at r - center).y +
        (ray.at r - center).z * (ray.at r - center).z := rfl
    rw [this] at hlen
    field_simp
    linear_combination hlen
  · simp only [Float3.dot, Float3.divScalar]
    have : (ray.at r - center).dot (ray.at r - center) =
        (ray.at r - center).x * (ray.at r - center).x +
        (ray.at r - center).y * (ray.at r - center).y +
        (ray.at r - center).z * (ray.at r - center).z := rfl
    rw [this] at hlen
    have heq : (ray.at r - center).x / radius * (ray.at r - center).x +
        (ray.at r - center).y / radius * (ray.at r - center).y +
        (ray.at r - center).z / radius * (ray.at r - center).z = radius := by
      field_simp
      linear_combination hlen
    rw [heq]
    exact hr

lemma root2_of_sqrt (a b c d s : ℚ) (hd : d = b * b - 4 * a * c) (hs : s * s = d)
    (ha : a ≠ 0) :
    a * ((-b + s) / (2 * a)) ^ 2 + b * ((-b + s) / (2 * a)) + c = 0 := by
  field_simp
  ring_nf
  linear_combination (a ^ 2 * 2) * hs + (a ^ 2 * 2) * hd

/-- C2: `Sphere::hit` returns no hit when the discriminant is not positive;
otherwise it evaluates the smaller root `(-b - sqrt d)/(2a)` first and falls
back to the larger root `(-b + sqrt d)/(2a)` only when the smaller one is
outside the open interval; and whenever a hit is returned, provided `sqrt`
returned the exact square root of the discriminant and the radius is
positive, the stored normal `(p - center)/radius` has unit squared length
and points outward (`dot(normal, p - center) > 0`). -/
theorem sphere_hit_spec (P : Prim) (center : Point3) (radius : ℚ) (material : ℕ)
    (ray : Ray) (t0 t1 : ℚ) (a b c d root1 root2 : ℚ)
    (ha : a = ray.direction.dot ray.direction)
    (hb : b = 2 * ray.direction.dot (ray.origin - center))
    (hc : c = (ray.origin - center).dot (ray.origin - center) - radius ^ 2)
    (hd : d = b * b - 4 * a * c)
    (h1 : root1 = (-b - P.sqrt d) / (2 * a))
    (h2 : root2 = (-b + P.sqrt d) / (2 * a)) :
    (d ≤ 0 → ShapeT.hit P (.sphere center radius material) ray t0 t1 = none) ∧
    (0 < d → t0 < root1 → root1 < t1 →
      ShapeT.hit P (.sphere center radius material) ray t0 t1 =
        some ⟨root1, ray.at root1, (ray.at root1 - center).divScalar radius, material,
          (Sphere.uv P ((ray.at root1 - center).divScalar radius)).1,
          (Sphere.uv P ((ray.at root1 - center).divScalar radius)).2⟩) ∧
    (0 < d → ¬(t0 < root1 ∧ root1 < t1) → t0 < root2 → root2 < t1 →
      ShapeT.hit P (.sphere center radius material) ray t0 t1 =
        some ⟨root2, ray.at root2, (ray.at root2 - center).divScalar radius, material,
          (Sphere.uv P ((ray.at root2 - center).divScalar radius)).1,
          (Sphere.uv P ((ray.at root2 - center).divScalar radius)).2⟩) ∧
    (P.sqrt d * P.sqrt d = d → 0 < radius → ∀ j,
      ShapeT.hit P (.sphere center radius material) ray t0 t1 = some j →
      j.n.length_squered = 1 ∧ 0 < j.n.dot (j.p - center)) := by
  subst h2 h1 hd hc hb ha
  refine ⟨?_, ?_, ?_, ?_⟩
  · intro hdle
    rw [hit_sphere]
    simp only [sphereHit]
    rw [if_neg (not_lt.mpr hdle)]
  · intro hdpos ht0 ht1
    rw [hit_sphere]
    simp only [sphereHit]
    rw [if_pos hdpos, if_pos ⟨ht0, ht1⟩]
  · intro hdpos hnot ht0 ht1
    rw [hit_sphere]
    simp only [sphereHit]
    rw [if_pos hdpos, if_neg hnot, if_pos ⟨ht0, ht1⟩]
  · intro hsq hr j h
    rw [hit_sphere] at h
    simp only [sphereHit] at h
    split_ifs at h with hdpos hb1 hb2
    · obtain rfl := Option.some.inj h
      have hane := dir_a_ne_zero ray.direction (ray.origin - center)
        ((ray.origin - center).dot (ray.origin - center) - radius ^ 2) hdpos
      exact sphere_normal_unit center radius ray _
        (root_of_sqrt _ _ _ _ _ rfl hsq hane) hr
    · obtain rfl := Option.some.inj h
      have hane := dir_a_ne_zero ray.direction (ray.origin - center)
        ((ray.origin - center).dot (ray.origin - center) - radius ^ 2) hdpos
      exact sphere_normal_unit center radius ray _
        (root2_of_sqrt _ _ _ _ _ rfl hsq hane) hr

/-- C2 witness: the sphere of radius 1 at the origin, hit from `(-2,0,0)`
along `+x`; the discriminant is 4, its exact square root 2, the near root
`t = 1`, and the reported normal `(-1,0,0)` is unit and outward. -/
theorem sphere_hit_spec_witness :
    ∃ j, ShapeT.hit Ptwo (.sphere ⟨0, 0, 0⟩ 1 0) ⟨⟨-2, 0, 0⟩, ⟨1, 0, 0⟩⟩ 0 10 =
        some j ∧ j.n.length_squered = 1 ∧ 0 < j.n.dot (j.p - ⟨0, 0, 0⟩) := by
  have hspec := sphere_hit_spec Ptwo ⟨0, 0, 0⟩ 1 0 ⟨⟨-2, 0, 0⟩, ⟨1, 0, 0⟩⟩ 0 10
    1 (-4) 3 4 1 3
    (by norm_num [Float3.dot])
    (by norm_num [Float3.dot, Float3.sub_def])
    (by norm_num [Float3.dot, Float3.sub_def])
    (by norm_num)
    (by norm_num [Ptwo])
    (by norm_num [Ptwo])
  have hJ := hspec.2.1 (by norm_num) (by norm_num) (by norm_num)
  exact ⟨_, hJ, hspec.2.2.2 (by norm_num [Ptwo]) (by norm_num) _ hJ⟩

/-! ### Claim C5: the rotate/conjugate-rotate round trip -/

/-- C5 (code-bug evaluation): take the unit z-axis and the angle whose
half-angle sine/cosine pair is `(3/5, 4/5)` (a genuine pair: the squares sum
to 1), build the quaternion with `Quat::from_rot`, rotate the on-axis point
`(0,0,1)` and rotate the result back with the conjugate: the transcribed
sandwich product returns `(0, 0, 49/625)`, not the original point — the
round trip fails far beyond floating tolerance. -/
theorem quat_rotate_roundtrip_failure :
    ((3 : ℚ) / 5) ^ 2 + ((4 : ℚ) / 5) ^ 2 = 1 ∧
    Float3.length_squered Float3.zaxis = 1 ∧
    (Quat.from_rot Float3.zaxis (3/5) (4/5)).conj.rotate
        ((Quat.from_rot Float3.zaxis (3/5) (4/5)).rotate ⟨0, 0, 1⟩) =
      ⟨0, 0, 49/625⟩ ∧
    (⟨0, 0, 49/625⟩ : Float3) ≠ ⟨0, 0, 1⟩ := by
  refine ⟨by norm_num, by norm_num [Float3.length_squered, Float3.zaxis], ?_, ?_⟩
  · norm_num [Quat.from_rot, Quat.conj, Quat.rotate, Float3.smul, Float3.zaxis,
      Float3.neg_def]
  · intro hcon
    rw [Float3.mk.injEq] at hcon
    norm_num at hcon

/-! ### Claim C6: unit normals -/

/-- C6 (code-bug evaluation): a rectangle in the plane `z = 0` wrapped in
`Rotate` about the unit z-axis (half-angle sine/cosine `(3/5, 4/5)`): the
decorated `hit` reports the normal `(0, 0, 7/25)` whose squared length is
`49/625`, not a unit vector — the transcribed `Quat::rotate` does not
preserve length along the rotation axis. -/
theorem rotate_normal_not_unit :
    (ShapeT.hit Pzero
        (.rotate (.rect (-1) 1 (-1) 1 0 .XY 7) (Quat.from_rot Float3.zaxis (3/5) (4/5)))
        ⟨⟨1/2, 1/2, -1⟩, ⟨0, 0, 1⟩⟩ 0 2).map (fun j => j.n.length_squered) =
      some (49/625) ∧ ((49 : ℚ) / 625) ≠ 1 := by
  constructor
  · have hhit : ShapeT.hit Pzero
        (.rotate (.rect (-1) 1 (-1) 1 0 .XY 7) (Quat.from_rot Float3.zaxis (3/5) (4/5)))
        ⟨⟨1/2, 1/2, -1⟩, ⟨0, 0, 1⟩⟩ 0 2 =
        some ⟨1, ⟨1/2, 1/2, 0⟩, ⟨0, 0, 7/25⟩, 7, 81/100, 33/100⟩ := by
      rw [hit_rotate, hit_rect]
      norm_num [rectHit, Ray.at, Quat.from_rot, Quat.conj, Quat.rotate, Float3.smul,
        Float3.zaxis, Float3.neg_def, Float3.add_def, Float3.sub_def]
    rw [hhit]
    norm_num [Float3.length_squered]
  · norm_num

/-! ### Claim C4: the recursive integrator terminates and is depth-guarded -/

/-- C4: `trace` is a total function (its very definition carries the
termination argument: the recursive call happens only under the guard
`depth > 0` and receives `depth - 1`).  At depth 0 no scatter is attempted —
the result is the emitted term alone on a hit and the background on a miss,
for EVERY scatter table — and at depth `d+1` the single recursive call is
made at depth `d`.  The reference maximum depth is 50. -/
theorem trace_depth_spec (P : Prim) (world : ShapeT) (background : Vec3 → Color)
    (emitted : ℕ → Ray → HitInfo → Color)
    (scatter scatter2 : ℕ → Ray → HitInfo → Option ScatterInfo) (ray : Ray) (d : ℕ) :
    (trace P world background emitted scatter ray 0 =
       match ShapeT.hit P world ray (1 / 1000) f64MAX with
       | some info => emitted info.m ray info
       | none => background ray.direction) ∧
    (trace P world background emitted scatter ray 0 =
       trace P world background emitted scatter2 ray 0) ∧
    (trace P world background emitted scatter ray (d + 1) =
       match ShapeT.hit P world ray (1 / 1000) f64MAX with
       | some info =>
           (match scatter info.m ray info with
            | some sc => emitted info.m ray info +
                sc.albedo * trace P world background emitted scatter sc.ray d
            | none => emitted info.m ray info)
       | none => background ray.direction) ∧
    MAX_RAY_BOUNCE_DEPTH = 50 := by
  have h0 : ∀ (sctable : ℕ → Ray → HitInfo → Option ScatterInfo),
      trace P world background emitted sctable ray 0 =
        match ShapeT.hit P world ray (1 / 1000) f64MAX with
        | some info => emitted info.m ray info
        | none => background ray.direction := by
    intro sctable
    rw [trace]
    cases ShapeT.hit P world ray (1 / 1000) f64MAX with
    | some info => simp
    | none => rfl
  refine ⟨h0 scatter, by rw [h0 scatter, h0 scatter2], ?_, rfl⟩
  rw [trace]
  cases ShapeT.hit P world ray (1 / 1000) f64MAX with
  | some info =>
      simp only [Nat.succ_sub_one]
      cases scatter info.m ray info with
      | some sc =>
          rw [if_pos (Nat.succ_pos d)]
      | none =>
          rw [if_pos (Nat.succ_pos d)]
  | none => rfl

/-! ### Claim C7: the dielectric always scatters, with white attenuation -/

lemma scatterBody_eq_some (sqrt : ℚ → ℚ) (rnd ri : ℚ) (ray : Ray)
    (info : HitInfo) (outward_normal : Float3) (ni_over_nt cosine : ℚ)
    (refracted : Float3)
    (hre : Float3.refract sqrt (-ray.direction) outward_normal ni_over_nt =
      some refracted) :
    Dielectric.scatterBody sqrt rnd ri ray info outward_normal ni_over_nt cosine =
      if rnd > Dielectric.schlick cosine ri then
        some ⟨⟨info.p, refracted⟩, Float3.one⟩
      else some ⟨⟨info.p, ray.direction.reflect info.n⟩, Float3.one⟩ := by
  unfold Dielectric.scatterBody
  rw [hre]

lemma scatterBody_eq_none (sqrt : ℚ → ℚ) (rnd ri : ℚ) (ray : Ray)
    (info : HitInfo) (outward_normal : Float3) (ni_over_nt cosine : ℚ)
    (hre : Float3.refract sqrt (-ray.direction) outward_normal ni_over_nt = none) :
    Dielectric.scatterBody sqrt rnd ri ray info outward_normal ni_over_nt cosine =
      some ⟨⟨info.p, ray.direction.reflect info.n⟩, Float3.one⟩ := by
  unfold Dielectric.scatterBody
  rw [hre]

lemma dielectric_scatterBody_total (sqrt : ℚ → ℚ) (rnd ri : ℚ) (ray : Ray)
    (info : HitInfo) (outward_normal : Float3) (ni_over_nt cosine : ℚ) :
    (∃ sc, Dielectric.scatterBody sqrt rnd ri ray info outward_normal
        ni_over_nt cosine = some sc ∧ sc.albedo = Float3.one) ∧
    (Float3.refract sqrt (-ray.direction) outward_normal ni_over_nt = none →
      Dielectric.scatterBody sqrt rnd ri ray info outward_normal ni_over_nt cosine =
        some ⟨⟨info.p, ray.direction.reflect info.n⟩, Float3.one⟩) := by
  cases hre : Float3.refract sqrt (-ray.direction) outward_normal ni_over_nt with
  | some refracted =>
      refine ⟨?_, ?_⟩
      · rw [scatterBody_eq_some sqrt rnd ri ray info outward_normal ni_over_nt
          cosine refracted hre]
        by_cases hrnd : rnd > Dielectric.schlick cosine ri
        · rw [if_pos hrnd]
          exact ⟨_, rfl, rfl⟩
        · rw [if_neg hrnd]
          exact ⟨_, rfl, rfl⟩
      · intro hcontra
        exact Option.noConfusion hcontra
  | none =>
      have heq := scatterBody_eq_none sqrt rnd ri ray info outward_normal
        ni_over_nt cosine hre
      exact ⟨⟨_, heq, rfl⟩, fun _ => heq⟩

/-- C7: for every `sqrt` primitive, random draw, refractive index, ray and
hit record, `Dielectric::scatter` returns `some` — when refraction is
impossible (`refract` returns `none`, total internal reflection) or the
Schlick draw selects reflection it falls back to the specular reflection
`reflect(direction, n)` — and the returned attenuation is white
(`Color::one`) in every branch. -/
theorem dielectric_scatter_total (sqrt : ℚ → ℚ) (rnd ri : ℚ) (ray : Ray)
    (info : HitInfo) :
    (∃ sc, Dielectric.scatter sqrt rnd ri ray info = some sc ∧
        sc.albedo = Float3.one) ∧
    (Float3.refract sqrt (-ray.direction)
        (if 0 < ray.direction.dot info.n then -info.n else info.n)
        (if 0 < ray.direction.dot info.n then ri else ri⁻¹) = none →
      Dielectric.scatter sqrt rnd ri ray info =
        some ⟨⟨info.p, ray.direction.reflect info.n⟩, Float3.one⟩) := by
  unfold Dielectric.scatter
  by_cases hdt : 0 < ray.direction.dot info.n
  · rw [if_pos hdt, if_pos hdt, if_pos hdt]
    exact dielectric_scatterBody_total sqrt rnd ri ray info (-info.n) ri _
  · rw [if_neg hdt, if_neg hdt, if_neg hdt]
    exact dielectric_scatterBody_total sqrt rnd ri ray info info.n ri⁻¹ _

/-! ### Claim C8: the Schlick approximation -/

/-- C8: for any refractive index `ri > 0` and cosines in `[0, 1]`, the
Schlick reflectance is monotonically non-decreasing as a function of
`1 - cosine`, and at `cosine = 1` it equals `R0 = ((1 - ri)/(1 + ri))^2`
exactly. -/
theorem schlick_monotone_r0 (ri c1 c2 : ℚ) (hri : 0 < ri)
    (hc1a : 0 ≤ c1) (hc1b : c1 ≤ 1) (hc2a : 0 ≤ c2) (hc2b : c2 ≤ 1)
    (hmono : 1 - c1 ≤ 1 - c2) :
    Dielectric.schlick c1 ri ≤ Dielectric.schlick c2 ri ∧
    Dielectric.schlick 1 ri = ((1 - ri) / (1 + ri)) ^ 2 := by
  constructor
  · simp only [Dielectric.schlick]
    have hr0 : ((1 - ri) / (1 + ri)) ^ 2 ≤ 1 := by
      rw [div_pow, div_le_one (by nlinarith)]
      nlinarith
    have hx : (1 - c1) ^ 5 ≤ (1 - c2) ^ 5 :=
      pow_le_pow_left₀ (by linarith) hmono 5
    have hprod := mul_le_mul_of_nonneg_left hx
      (by linarith : (0 : ℚ) ≤ 1 - ((1 - ri) / (1 + ri)) ^ 2)
    linarith
  · norm_num [Dielectric.schlick]

/-- C8 witness: at `ri = 3/2`, moving the cosine from 1 down to 0 does not
decrease the reflectance, and at cosine 1 it is exactly `R0`. -/
theorem schlick_monotone_r0_witness :
    Dielectric.schlick 1 (3/2) ≤ Dielectric.schlick 0 (3/2) ∧
    Dielectric.schlick 1 (3/2) = ((1 - 3/2) / (1 + 3/2)) ^ 2 :=
  schlick_monotone_r0 (3/2) 1 0 (by norm_num) (by norm_num) (by norm_num)
    (by norm_num) (by norm_num) (by norm_num)

/-! ### Claim C10: image texture sampling is always in bounds -/

/-- Clamped coordinates index a `w * h` buffer in bounds. -/
lemma clamp_index_lt (w h X Y : ℕ) (hw : 1 ≤ w) (hh : 1 ≤ h)
    (hX : X ≤ w - 1) (hY : Y ≤ h - 1) : X + w * Y < w * h := by
  obtain ⟨a, ha⟩ := Nat.exists_eq_add_of_le hw
  obtain ⟨b, hb⟩ := Nat.exists_eq_add_of_le hh
  subst ha
  subst hb
  have hX1 : X ≤ a := by omega
  have hY1 : Y ≤ b := by omega
  have h1 : (1 + a) * Y ≤ (1 + a) * b := Nat.mul_le_mul_left _ hY1
  have h2 : (1 + a) * (1 + b) = 1 + a + (1 + a) * b := by ring
  rw [h2]
  linarith

/-- C10: for every `ImageTexture` whose buffer has `width * height` pixels
with positive dimensions, the clamped coordinates of `sample` index the
buffer in bounds for EVERY pair of integer inputs (hence for every `(u, v)`,
however far outside `[0,1]^2` the derived integers land), so `sample` and
`value` always return a pixel. -/
theorem image_texture_total (tex : ImageTexture) (hw : 1 ≤ tex.width)
    (hh : 1 ≤ tex.height) (hlen : tex.pixels.length = tex.width * tex.height) :
    (∀ u v : ℤ, (tex.sample u v).isSome = true) ∧
    (∀ (u v : ℚ) (p : Point3), (tex.value u v p).isSome = true) := by
  have hmain : ∀ u v : ℤ, (tex.sample u v).isSome = true := by
    intro u v
    simp only [ImageTexture.sample]
    have htu : (if u < 0 then 0
        else if tex.width ≤ u.toNat then tex.width - 1
        else u.toNat) ≤ tex.width - 1 := by
      split_ifs with h1 h2
      · omega
      · exact le_refl _
      · omega
    have htv : (if v < 0 then 0
        else if tex.height ≤ v.toNat then tex.height - 1
        else v.toNat) ≤ tex.height - 1 := by
      split_ifs with h1 h2
      · omega
      · exact le_refl _
      · omega
    have hbound : (if u < 0 then 0
        else if tex.width ≤ u.toNat then tex.width - 1
        else u.toNat) + tex.width * (if v < 0 then 0
        else if tex.height ≤ v.toNat then tex.height - 1
        else v.toNat) < tex.pixels.length := by
      rw [hlen]
      exact clamp_index_lt tex.width tex.height _ _ hw hh htu htv
    rw [List.get?_eq_get hbound]
    rfl
  refine ⟨hmain, ?_⟩
  intro u v p
  simp only [ImageTexture.value]
  exact hmain _ _

/-- C10 witness: the total-access theorem applied to a 1-by-1 texture and
the out-of-range integer coordinates `(5, -3)`. -/
theorem image_texture_total_witness :
    ((ImageTexture.mk [Float3.zero] 1 1).sample 5 (-3)).isSome = true :=
  (image_texture_total ⟨[Float3.zero], 1, 1⟩ (le_refl 1) (le_refl 1)
    (by simp)).1 5 (-3)

/-- C7 witness: a total-internal-reflection configuration (`ri = 1/2` seen
from inside, grazing geometry) where `refract` returns `none` and the
scatter falls back to the specular reflection with white attenuation. -/
theorem dielectric_scatter_total_witness :
    Dielectric.scatter (fun _ => 1) (1/2) (1/2) ⟨⟨0, 0, 0⟩, ⟨-1, 0, 0⟩⟩
        ⟨1, ⟨0, 0, 0⟩, ⟨0, 0, 1⟩, 0, 0, 0⟩ =
      some ⟨⟨⟨0, 0, 0⟩, Float3.reflect ⟨-1, 0, 0⟩ ⟨0, 0, 1⟩⟩, Float3.one⟩ := by
  refine (dielectric_scatter_total (fun _ => 1) (1/2) (1/2) ⟨⟨0, 0, 0⟩, ⟨-1, 0, 0⟩⟩
      ⟨1, ⟨0, 0, 0⟩, ⟨0, 0, 1⟩, 0, 0, 0⟩).2 ?_
  norm_num [Float3.refract, Float3.normalize, Float3.length, Float3.length_squered,
    Float3.divScalar, Float3.dot, Float3.neg_def]
